import Mathlib

/-!
Verification development for the response-side query executor of
go-graphsync (package `responsemanager`).

The Lean definitions below are a shallow embedding of the Go source:

* `src/responsemanager/responsemanager.go` — the response serializer
  (`ResponseManager`): the in-progress-response table and its message
  handlers (`processRequestMessage.handle`, `finishTaskRequest.handle`,
  `unpauseRequestMessage.unpauseRequest`, `responseDataRequest.handle`),
  and the public `UnpauseResponse` entry point.
* `src/unnamed/part_001` — the query executor (`queryExecutor`):
  `processQueriesWorker`, `executeTask`, `prepareQuery`,
  `processDedupByKey`, `processDoNoSendCids`, `executeQuery`,
  `checkForUpdates`, `isContextErr`.

External collaborators (peer-response sender, hook registries, the
selector traversal library, the task queue) are modelled by their
observable behaviour: hook invocations take the hook chain's result as
an input, and calls into the per-peer sender are recorded as an ordered
event trace.  Go contexts are modelled as numeric identifiers; invoking
an entry's `cancelFn` appends its context id to a `cancelled` list.
Machine integers that matter (`math.MaxInt32` as the unpause priority)
are written out explicitly.
-/

namespace GraphSync

/-- Status codes surfaced by the core (package graphsync constants). -/
inductive ResponseStatusCode where
  | requestFailedUnknown
  | requestCancelled
  | requestPaused
  | completedFull
  | completedPartial
  deriving DecidableEq, Repr

/-- Errors flowing through the executor.  `errPaused` embeds
`hooks.ErrPaused` (detected by type assertion in the Go code),
`contextCancel` embeds `ipldutil.ContextCancelError`, `cancelledByCommand`
embeds the sentinel `errCancelledByCommand` of `src/unnamed/part_001`
(compared by identity in Go, by constructor here), and `other` carries an
arbitrary error message. -/
inductive GsError where
  | errPaused
  | contextCancel
  | cancelledByCommand
  | other (msg : String)
  deriving DecidableEq, Repr

/-- Error messages, as produced by the corresponding Go `Error()`
methods.  `cancelledByCommand`'s text is literally in
`src/unnamed/part_001`; `contextCancel`'s text is the
`ipldutil.ContextCancelError` message the same file compares against;
`errPaused`'s text is that of `hooks.ErrPaused` (external package). -/
def errMessage : GsError → String
  | .errPaused => "request has been paused"
  | .contextCancel => "Context Cancelled"
  | .cancelledByCommand => "response cancelled by responder"
  | .other msg => msg

/-- Character-list test used to embed Go's `strings.Contains`. -/
def startsWithChars : List Char → List Char → Bool
  | [], _ => true
  | _ :: _, [] => false
  | c :: cs, d :: ds => c == d && startsWithChars cs ds

/-- Substring occurrence test on character lists (Go `strings.Contains`). -/
def containsChars (pat : List Char) : List Char → Bool
  | [] => startsWithChars pat []
  | d :: ds => startsWithChars pat (d :: ds) || containsChars pat ds

/-- Embeds `isContextErr` of `src/unnamed/part_001`: substring-match the
error message against `ipldutil.ContextCancelError{}.Error()`. -/
def isContextErr (e : GsError) : Bool :=
  containsChars "Context Cancelled".toList (errMessage e).toList

/-- Embeds the Go type assertion `_, ok := err.(hooks.ErrPaused)`. -/
def isErrPaused : GsError → Bool
  | .errPaused => true
  | _ => false

/-- Requests as the serializer and executor consume them: the fields of
`gsmsg.GraphSyncRequest` read by the embedded code.  The two recognized
extensions are modelled by their presence and decode outcome: `none` =
extension absent, `some none` = present but failing to decode,
`some (some v)` = present and decoding to `v`. -/
structure GsRequest where
  id : Nat
  priority : Int
  isCancel : Bool
  isUpdate : Bool
  root : Nat
  selector : Nat
  dedupExt : Option (Option Nat)
  doNotSendExt : Option (Option (List Nat))
  deriving DecidableEq, Repr

/-- Identity of an in-progress response (`responseKey`). -/
structure ResponseKey where
  p : Nat
  requestID : Nat
  deriving DecidableEq, Repr

/-- Traversers produced by `ipldutil.TraversalBuilder{...}.Start(ctx)`,
modelled by the inputs the builder captures. -/
structure Traverser where
  root : Nat
  selector : Nat
  chooser : Option Nat
  deriving DecidableEq, Repr

/-- An entry of the in-progress-response table
(`inProgressResponseStatus`).  The Go `context.Context` / `cancelFn`
pair is modelled by the numeric id `ctx`; loaders are numeric ids. -/
structure IPREntry where
  ctx : Nat
  request : GsRequest
  loader : Option Nat
  traverser : Option Traverser
  isPaused : Bool
  deriving DecidableEq, Repr

/-- A task handed to the query queue (`peertask.Task`). -/
structure GsTask where
  topic : ResponseKey
  priority : Int
  work : Nat
  deriving DecidableEq, Repr

/-- State owned by the serializer goroutine: the in-progress table (an
association list standing for the Go map), the query queue's pending
tasks paired with their peer, the capacity-1 `workSignal` channel
(`true` = a poke is pending), the list of context ids whose `cancelFn`
has been invoked, and a fresh-context counter. -/
structure RMState where
  inProgress : List (ResponseKey × IPREntry)
  queue : List (Nat × GsTask)
  workSignal : Bool
  cancelled : List Nat
  nextCtx : Nat
  deriving DecidableEq, Repr

/-- Go map read `rm.inProgressResponses[key]`. -/
def lookupEntry (l : List (ResponseKey × IPREntry)) (k : ResponseKey) : Option IPREntry :=
  (l.find? fun q => decide (q.1 = k)).map (·.2)

/-- Go map write `rm.inProgressResponses[key] = e` (replace or append). -/
def setEntry : List (ResponseKey × IPREntry) → ResponseKey → IPREntry →
    List (ResponseKey × IPREntry)
  | [], k, e => [(k, e)]
  | (k', e') :: rest, k, e =>
    if k' = k then (k, e) :: rest else (k', e') :: setEntry rest k e

/-- Go in-place mutation of the entry stored under `k` (the map stores a
pointer, so field assignments update the stored entry). -/
def updateEntry (l : List (ResponseKey × IPREntry)) (k : ResponseKey)
    (f : IPREntry → IPREntry) : List (ResponseKey × IPREntry) :=
  match l with
  | [] => []
  | (k', e') :: rest =>
    if k' = k then (k', f e') :: rest else (k', e') :: updateEntry rest k f

/-- Go map delete `delete(rm.inProgressResponses, key)`.  A Go map holds
one binding per key, so removing every association-list pair bearing the
key embeds the single-binding delete. -/
def eraseEntry (l : List (ResponseKey × IPREntry)) (k : ResponseKey) :
    List (ResponseKey × IPREntry) :=
  l.filter fun q => !decide (q.1 = k)

/-- Embeds one iteration of the loop in `processRequestMessage.handle`
(src/responsemanager/responsemanager.go, lines 335-360): a non-cancel
request gets a fresh context, is inserted into the table, a task with
its priority (and work 1) is pushed for its peer, and `workSignal` is
poked; a cancel request has its topic removed from the queue and, when
an in-progress entry exists, that entry's `cancelFn` invoked. -/
def processOneRequest (p : Nat) (request : GsRequest) (s : RMState) : RMState :=
  let key : ResponseKey := ⟨p, request.id⟩
  if !request.isCancel then
    { s with
      inProgress := setEntry s.inProgress key
        ⟨s.nextCtx, request, none, none, false⟩
      nextCtx := s.nextCtx + 1
      queue := s.queue ++ [(p, ⟨key, request.priority, 1⟩)]
      workSignal := true }
  else
    let s₁ := { s with
      queue := s.queue.filter fun t => !(decide (t.1 = p) && decide (t.2.topic = key)) }
    match lookupEntry s₁.inProgress key with
    | some e => { s₁ with cancelled := s₁.cancelled ++ [e.ctx] }
    | none => s₁

/-- Embeds the whole of `processRequestMessage.handle`: requests are
processed in order. -/
def processRequestsHandle (p : Nat) (requests : List GsRequest) (s : RMState) : RMState :=
  requests.foldl (fun s r => processOneRequest p r s) s

/-- Embeds `finishTaskRequest.handle`
(src/responsemanager/responsemanager.go, lines 376-390): an absent key
is ignored; a paused error marks the entry paused and keeps it; any
other outcome deletes the entry and invokes its `cancelFn`. -/
def finishTaskHandle (key : ResponseKey) (err : Option GsError) (s : RMState) : RMState :=
  match lookupEntry s.inProgress key with
  | none => s
  | some e =>
    if err = some .errPaused then
      { s with inProgress := updateEntry s.inProgress key fun e => { e with isPaused := true } }
    else
      { s with
        inProgress := eraseEntry s.inProgress key
        cancelled := s.cancelled ++ [e.ctx] }

/-- A sequence of `finishTask` messages handled in arrival order. -/
def runFinishTasks (msgs : List (ResponseKey × Option GsError)) (s : RMState) : RMState :=
  msgs.foldl (fun s m => finishTaskHandle m.1 m.2 s) s

/-- Number of places context id `c` is still live in the table plus the
number of times it has been cancelled; used to show each context is
cancelled at most once. -/
def ctxMeasure (c : Nat) (s : RMState) : Nat :=
  (s.inProgress.filter fun q => decide (q.2.ctx = c)).length + s.cancelled.count c

/-- Value of `math.MaxInt32`, the priority used by
`unpauseRequestMessage.unpauseRequest` when re-queueing. -/
def maxInt32Priority : Int := 2147483647

/-- Embeds `unpauseRequestMessage.unpauseRequest`
(src/responsemanager/responsemanager.go, lines 408-424): reply with an
error (and leave the state alone) when the key is absent or the entry is
not paused; otherwise clear `isPaused`, push a maximum-priority task and
poke `workSignal`. -/
def unpauseRequestHandle (p requestID : Nat) (s : RMState) : Option String × RMState :=
  let key : ResponseKey := ⟨p, requestID⟩
  match lookupEntry s.inProgress key with
  | none => (some "could not find request", s)
  | some e =>
    if !e.isPaused then (some "request is not paused", s)
    else
      (none,
        { s with
          inProgress := updateEntry s.inProgress key fun e => { e with isPaused := false }
          queue := s.queue ++ [(p, ⟨key, maxInt32Priority, 1⟩)]
          workSignal := true })

/-- Calls the executor makes into the per-peer response sender
(`peerresponsemanager.PeerResponseSender` and its transaction view),
recorded in call order. -/
inductive SenderEvent where
  | sendExtensionData (ext : Nat)
  | sendResponse (link : Nat)
  | pauseRequest
  | finishWithError (code : ResponseStatusCode)
  | finishWithCancel
  | finishRequest
  | dedupKey (k : Nat)
  | ignoreBlocks (links : List Nat)
  deriving DecidableEq, Repr

/-- One queued update request as `checkForUpdates` consumes it: the
update-hook chain is external, so an update is modelled by the hook
result it produces (`hooks.UpdateResult`): extensions to emit and an
optional error. -/
structure UpdateMsg where
  extensions : List Nat
  err : Option GsError
  deriving DecidableEq, Repr

/-- The signal branches taken by the `select` loop of `checkForUpdates`,
in the order they fire.  An empty list is the `default` branch.  The
`update` case carries the pending updates the serializer hands back
through `updateChan`. -/
inductive SignalEvent where
  | stop (selfCancelled : Bool)
  | pause
  | update (updates : List UpdateMsg)
  deriving DecidableEq, Repr

/-- Embeds the update-processing loop inside the `updateSignal` branch of
`checkForUpdates`: each update's hook extensions are emitted in order
and the first hook error stops the loop and is returned. -/
def processUpdates : List UpdateMsg → List SenderEvent × Option GsError
  | [] => ([], none)
  | u :: us =>
    let evs := u.extensions.map SenderEvent.sendExtensionData
    match u.err with
    | some e => (evs, some e)
    | none =>
      let (evs', r) := processUpdates us
      (evs ++ evs', r)

/-- Embeds `queryExecutor.checkForUpdates` (src/unnamed/part_001, lines
248-286): poll the stop, pause and update signals; a stop signal returns
`errCancelledByCommand` or `ContextCancelError`, a pause signal calls
`PauseRequest()` and returns `ErrPaused`, updates are run through the
update hooks and the loop continues; with no signal pending the
`default` branch returns no error. -/
def checkForUpdates : List SignalEvent → List SenderEvent × Option GsError
  | [] => ([], none)
  | .stop true :: _ => ([], some .cancelledByCommand)
  | .stop false :: _ => ([], some .contextCancel)
  | .pause :: _ => ([SenderEvent.pauseRequest], some .errPaused)
  | .update us :: rest =>
    let (evs, r) := processUpdates us
    match r with
    | some e => (evs, some e)
    | none =>
      let (evs', r') := checkForUpdates rest
      (evs ++ evs', r')

/-- External inputs consumed while visiting one `(link, bytes)` yield of
the traverser: the link, the `BlockData.BlockSize()` the sender reports
for it (0 when the block is suppressed), the block-hook chain's result
(extensions and optional error), and the signal branches the
`checkForUpdates` select takes. -/
structure YieldStep where
  link : Nat
  blockSize : Nat
  hookExtensions : List Nat
  hookErr : Option GsError
  sigs : List SignalEvent
  deriving DecidableEq, Repr

/-- Outcome of visiting one yield: the sender calls made inside the
transaction, whether the block-hook chain was invoked, and the error the
visitor returns to `RunTraversal`. -/
structure VisitResult where
  events : List SenderEvent
  ranBlockHooks : Bool
  err : Option GsError
  deriving DecidableEq, Repr

/-- Embeds the per-link visitor of `queryExecutor.executeQuery`
(src/unnamed/part_001, lines 205-227): inside a sender transaction,
first `checkForUpdates`; a non-paused error ends the transaction and is
returned; otherwise `SendResponse(link, data)` is called, and when the
returned block size is positive the block hooks run, their extensions
are emitted, a paused hook result additionally calls `PauseRequest()`,
and a non-nil hook error replaces the pending error. -/
def visitLink (y : YieldStep) : VisitResult :=
  let (cEvs, cErr) := checkForUpdates y.sigs
  let abort :=
    match cErr with
    | some e => !isErrPaused e
    | none => false
  if abort then ⟨cEvs, false, cErr⟩
  else if y.blockSize > 0 then
    let extEvs := y.hookExtensions.map SenderEvent.sendExtensionData
    let pauseEvs := if y.hookErr = some .errPaused then [SenderEvent.pauseRequest] else []
    let finalErr := match y.hookErr with | some e => some e | none => cErr
    ⟨cEvs ++ [SenderEvent.sendResponse y.link] ++ extEvs ++ pauseEvs, true, finalErr⟩
  else
    ⟨cEvs ++ [SenderEvent.sendResponse y.link], false, cErr⟩

/-- Embeds `runtraversal.RunTraversal` as `executeQuery` drives it: the
traverser's yields are visited in order, the first visitor error stops
the traversal and is returned, and when every visit succeeds the
traversal itself may end in a driver error `tErr` (for example a
context-cancelled loader) or in normal termination (`tErr = none`). -/
def runTraversalModel (tErr : Option GsError) :
    List YieldStep → List SenderEvent × Option GsError
  | [] => ([], tErr)
  | y :: ys =>
    let v := visitLink y
    match v.err with
    | some e => (v.events, some e)
    | none =>
      let (evs, r) := runTraversalModel tErr ys
      (v.events ++ evs, r)

/-- Embeds the error mapping at the tail of `queryExecutor.executeQuery`
(src/unnamed/part_001, lines 229-246).  `fstatus` is the status code
`FinishRequest()` returns on normal termination.  The result is the
reported status, the sender calls made, and the error returned to the
worker. -/
def executeQueryFinish (fstatus : ResponseStatusCode) :
    Option GsError → ResponseStatusCode × List SenderEvent × Option GsError
  | some e =>
    if isErrPaused e then (.requestPaused, [], some e)
    else if isContextErr e then (.requestCancelled, [SenderEvent.finishWithCancel], some e)
    else if e = .cancelledByCommand then
      (.requestCancelled, [SenderEvent.finishWithError .requestCancelled], some e)
    else
      (.requestFailedUnknown, [SenderEvent.finishWithError .requestFailedUnknown], some e)
  | none => (fstatus, [SenderEvent.finishRequest], none)

/-- Embeds `queryExecutor.executeQuery` end to end: run the traversal,
then map its outcome to sender calls and a reported status. -/
def executeQueryModel (ys : List YieldStep) (tErr : Option GsError)
    (fstatus : ResponseStatusCode) :
    ResponseStatusCode × List SenderEvent × Option GsError :=
  let (evs, r) := runTraversalModel tErr ys
  let (st, fevs, rerr) := executeQueryFinish fstatus r
  (st, evs ++ fevs, rerr)

/-- Result of the request-hook chain (`requesthooks.Result` as consumed
by `prepareQuery`): extensions to emit, an optional error, the
`IsValidated` and `IsPaused` decisions, and optional custom loader and
selector chooser. -/
structure RequestHookResult where
  extensions : List Nat
  err : Option String
  isValidated : Bool
  isPaused : Bool
  customLoader : Option Nat
  customChooser : Option Nat
  deriving DecidableEq, Repr

/-- Embeds `queryExecutor.processDedupByKey` (src/unnamed/part_001,
lines 161-173): an absent extension is a no-op; a payload that fails to
decode sends `FinishWithError(RequestFailedUnknown)` and errors;
otherwise `DedupKey` is applied. -/
def processDedupByKeyM (request : GsRequest) : List SenderEvent × Option GsError :=
  match request.dedupExt with
  | none => ([], none)
  | some none =>
    ([SenderEvent.finishWithError .requestFailedUnknown], some (.other "dedup decode error"))
  | some (some k) => ([SenderEvent.dedupKey k], none)

/-- Embeds `queryExecutor.processDoNoSendCids` (src/unnamed/part_001,
lines 175-195): an absent extension is a no-op; a payload that fails to
decode sends `FinishWithError(RequestFailedUnknown)` and errors;
otherwise `IgnoreBlocks` is applied to the decoded links. -/
def processDoNotSendCidsM (request : GsRequest) : List SenderEvent × Option GsError :=
  match request.doNotSendExt with
  | none => ([], none)
  | some none =>
    ([SenderEvent.finishWithError .requestFailedUnknown], some (.other "cidset decode error"))
  | some (some links) => ([SenderEvent.ignoreBlocks links], none)

/-- Embeds `queryExecutor.prepareQuery` (src/unnamed/part_001, lines
116-159): inside a sender transaction the request-hook extensions are
sent; a hook error or a failed validation sends
`FinishWithError(RequestFailedUnknown)` and fails with "request not
valid"; a paused hook decision calls `PauseRequest()`; then the two
recognized extensions are processed, a traverser is built from the
request's root and selector (and any custom chooser), and the custom
loader, or else the executor's default loader, is returned together
with the paused flag. -/
def prepareQuery (defaultLoader : Nat) (result : RequestHookResult)
    (request : GsRequest) :
    List SenderEvent × Except GsError (Nat × Traverser × Bool) :=
  let extEvs := result.extensions.map SenderEvent.sendExtensionData
  if result.err.isSome || !result.isValidated then
    (extEvs ++ [SenderEvent.finishWithError .requestFailedUnknown],
      .error (.other "request not valid"))
  else
    let pauseEvs := if result.isPaused then [SenderEvent.pauseRequest] else []
    let (dEvs, dErr) := processDedupByKeyM request
    match dErr with
    | some e => (extEvs ++ pauseEvs ++ dEvs, .error e)
    | none =>
      let (nEvs, nErr) := processDoNotSendCidsM request
      match nErr with
      | some e => (extEvs ++ pauseEvs ++ dEvs ++ nEvs, .error e)
      | none =>
        let traverser : Traverser := ⟨request.root, request.selector, result.customChooser⟩
        let loader := result.customLoader.getD defaultLoader
        (extEvs ++ pauseEvs ++ dEvs ++ nEvs, .ok (loader, traverser, result.isPaused))

/-- Task data the serializer hands a worker (`responseTaskData` of the
queryExecutor era): an `empty` marker plus the entry's request, loader
and traverser. -/
structure TaskData where
  empty : Bool
  request : GsRequest
  loader : Option Nat
  traverser : Option Traverser
  deriving DecidableEq, Repr

/-- Embeds `queryExecutor.executeTask` (src/unnamed/part_001, lines
94-114): when the task data carries no loader or traverser yet, run
`prepareQuery`; on its error report `RequestFailedUnknown`; when the
hooks paused the fresh request report `(RequestPaused, ErrPaused)`;
otherwise (or when loader and traverser already exist) run
`executeQuery`.  The `setResponseDataRequest` message back to the
serializer carries the prepared loader and traverser and has no effect
on the sender trace, so it is not part of this function's result. -/
def executeTaskModel (td : TaskData) (defaultLoader : Nat)
    (hookRes : RequestHookResult) (ys : List YieldStep) (tErr : Option GsError)
    (fstatus : ResponseStatusCode) :
    ResponseStatusCode × List SenderEvent × Option GsError :=
  match td.loader, td.traverser with
  | some _, some _ => executeQueryModel ys tErr fstatus
  | _, _ =>
    match prepareQuery defaultLoader hookRes td.request with
    | (evs, .error e) => (.requestFailedUnknown, evs, some e)
    | (evs, .ok (_, _, isPaused)) =>
      if isPaused then (.requestPaused, evs, some .errPaused)
      else
        let (st, evs', err) := executeQueryModel ys tErr fstatus
        (st, evs ++ evs', err)

/-- Placeholder request carried by an empty task-data reply. -/
def emptyRequest : GsRequest := ⟨0, 0, false, false, 0, 0, none, none⟩

/-- The empty task-data value (`responseTaskData{empty: true}`). -/
def emptyTaskData : TaskData := ⟨true, emptyRequest, none, none⟩

/-- Modelled from the spec: the `responseDataRequest` handler paired with
the queryExecutor worker of src/unnamed/part_001 is not under src/ (the
legacy handler in src/responsemanager/responsemanager.go replies `nil`
instead of a value with an `empty` marker).  Per spec section 4.5 the
serializer "replies with current values (or `empty` if absent)". -/
def responseDataReply (s : RMState) (key : ResponseKey) : TaskData :=
  match lookupEntry s.inProgress key with
  | none => emptyTaskData
  | some e => ⟨false, e.request, e.loader, e.traverser⟩

/-- Embeds the per-task body of `queryExecutor.processQueriesWorker`
(src/unnamed/part_001, lines 59-87): an empty task-data reply is logged
and skipped — no `executeTask` call, no `finishTask` message (result
`none`); otherwise `executeTask` runs and its status and error are sent
back in a `finishTask` message (result `some`). -/
def workerProcessTask (reply : TaskData) (defaultLoader : Nat)
    (hookRes : RequestHookResult) (ys : List YieldStep) (tErr : Option GsError)
    (fstatus : ResponseStatusCode) :
    Option (ResponseStatusCode × List SenderEvent × Option GsError) :=
  if reply.empty then none
  else some (executeTaskModel reply defaultLoader hookRes ys tErr fstatus)

/-- Choice an oracle makes for a Go `select` in which the `ctx.Done()`
branch and one other branch are both ready. -/
inductive SelectChoice where
  | done
  | proceed
  deriving DecidableEq, Repr

/-- Outcome of a call to the public `UnpauseResponse`. -/
inductive CallResult where
  | returned (err : Option String)
  | blocked
  deriving DecidableEq, Repr

/-- Embeds `ResponseManager.UnpauseResponse`
(src/responsemanager/responsemanager.go, lines 143-156) as two
consecutive `select`s.  `ctxDone` is whether the manager's context is
already cancelled, `msgSpace` whether the bounded `messages` channel can
accept the message, and `reply` the error the serializer puts on the
reply channel (`none` when no reply is ever produced, as after the run
loop has exited).  `c1`/`c2` resolve the nondeterministic choice of a
`select` whose branches are simultaneously ready; a `select` none of
whose branches ever becomes ready blocks. -/
def unpauseResponseCall (ctxDone msgSpace : Bool) (reply : Option (Option String))
    (c1 c2 : SelectChoice) : CallResult :=
  let afterSend : CallResult :=
    if ctxDone then
      match c2, reply with
      | .done, _ => .returned (some "Context Cancelled")
      | .proceed, some e => .returned e
      | .proceed, none => .returned (some "Context Cancelled")
    else
      match reply with
      | some e => .returned e
      | none => .blocked
  if ctxDone then
    match c1, msgSpace with
    | .done, _ => .returned (some "Context Cancelled")
    | .proceed, true => afterSend
    | .proceed, false => .returned (some "Context Cancelled")
  else if msgSpace then afterSend
  else .blocked

/-! Helper lemmas about the association-list operations standing for the
Go map of in-progress responses. -/

lemma lookupEntry_setEntry_self (l : List (ResponseKey × IPREntry)) (k : ResponseKey)
    (e : IPREntry) : lookupEntry (setEntry l k e) k = some e := by
  induction l with
  | nil => simp [setEntry, lookupEntry]
  | cons q rest ih =>
    obtain ⟨k', e'⟩ := q
    by_cases h : k' = k
    · subst h
      simp [setEntry, lookupEntry]
    · simp only [setEntry, if_neg h]
      simpa [lookupEntry, List.find?_cons, h] using ih

lemma lookupEntry_updateEntry (l : List (ResponseKey × IPREntry)) (k : ResponseKey)
    (f : IPREntry → IPREntry) :
    lookupEntry (updateEntry l k f) k = (lookupEntry l k).map f := by
  induction l with
  | nil => simp [updateEntry, lookupEntry]
  | cons q rest ih =>
    obtain ⟨k', e'⟩ := q
    by_cases h : k' = k
    · subst h
      simp [updateEntry, lookupEntry]
    · simp only [updateEntry, if_neg h]
      simpa [lookupEntry, List.find?_cons, h] using ih

lemma lookupEntry_eraseEntry (l : List (ResponseKey × IPREntry)) (k : ResponseKey) :
    lookupEntry (eraseEntry l k) k = none := by
  have hfind : (eraseEntry l k).find? (fun q => decide (q.1 = k)) = none := by
    rw [List.find?_eq_none]
    intro x hx
    rw [eraseEntry, List.mem_filter] at hx
    simpa using hx.2
  simp [lookupEntry, hfind]

lemma filterCtx_updateEntry_pause (l : List (ResponseKey × IPREntry)) (k : ResponseKey)
    (c : Nat) :
    ((updateEntry l k fun e => { e with isPaused := true }).filter
        fun q => decide (q.2.ctx = c)).length =
      (l.filter fun q => decide (q.2.ctx = c)).length := by
  induction l with
  | nil => rfl
  | cons q rest ih =>
    obtain ⟨k', e'⟩ := q
    by_cases h : k' = k
    · by_cases hc : e'.ctx = c <;>
        simp [updateEntry, h, List.filter_cons, hc]
    · by_cases hc : e'.ctx = c <;>
        simp [updateEntry, h, List.filter_cons, hc, ih]

lemma filterCtx_eraseEntry_le (l : List (ResponseKey × IPREntry)) (k : ResponseKey)
    (c : Nat) :
    ((eraseEntry l k).filter fun q => decide (q.2.ctx = c)).length ≤
      (l.filter fun q => decide (q.2.ctx = c)).length :=
  ((List.filter_sublist l).filter _).length_le

lemma filterCtx_eraseEntry_found (l : List (ResponseKey × IPREntry)) (k : ResponseKey)
    (e : IPREntry) (c : Nat) (hl : lookupEntry l k = some e) (hc : e.ctx = c) :
    ((eraseEntry l k).filter fun q => decide (q.2.ctx = c)).length + 1 ≤
      (l.filter fun q => decide (q.2.ctx = c)).length := by
  induction l with
  | nil => simp [lookupEntry] at hl
  | cons q rest ih =>
    obtain ⟨k', e'⟩ := q
    by_cases h : k' = k
    · have he : e' = e := by
        subst h
        simpa [lookupEntry] using hl
      have herase : eraseEntry ((k', e') :: rest) k = eraseEntry rest k := by
        simp [eraseEntry, List.filter_cons, h]
      have hfc : (((k', e') :: rest).filter fun q => decide (q.2.ctx = c)) =
          (k', e') :: rest.filter fun q => decide (q.2.ctx = c) := by
        simp [List.filter_cons, he, hc]
      rw [herase, hfc, List.length_cons]
      have hle := filterCtx_eraseEntry_le rest k c
      omega
    · have hl' : lookupEntry rest k = some e := by
        simpa [lookupEntry, List.find?_cons, h] using hl
      have herase : eraseEntry ((k', e') :: rest) k = (k', e') :: eraseEntry rest k := by
        simp [eraseEntry, List.filter_cons, h]
      rw [herase]
      have hih := ih hl'
      by_cases hc' : e'.ctx = c <;>
        · simp only [List.filter_cons, hc', decide_True, decide_False,
            decide_eq_true_eq, if_true, if_false, List.length_cons]
          first
          | omega
          | (simp [hc']; omega)

lemma finishTaskHandle_ctxMeasure_le (key : ResponseKey) (err : Option GsError)
    (s : RMState) (c : Nat) :
    ctxMeasure c (finishTaskHandle key err s) ≤ ctxMeasure c s := by
  unfold finishTaskHandle
  cases hl : lookupEntry s.inProgress key with
  | none => exact le_refl _
  | some e =>
    by_cases hp : err = some .errPaused
    · have hupd := filterCtx_updateEntry_pause s.inProgress key c
      simp [hp, ctxMeasure, hupd]
    · simp only [hp, ite_false, if_neg, ctxMeasure, List.count_append]
      by_cases hc : e.ctx = c
      · have h1 := filterCtx_eraseEntry_found s.inProgress key e c hl hc
        have h2 : List.count c [e.ctx] = 1 := by simp [hc]
        omega
      · have h1 := filterCtx_eraseEntry_le s.inProgress key c
        have h2 : List.count c [e.ctx] = 0 := by simp [List.count_cons, hc]
        omega

lemma runFinishTasks_ctxMeasure_le (msgs : List (ResponseKey × Option GsError)) :
    ∀ (s : RMState) (c : Nat),
      ctxMeasure c (runFinishTasks msgs s) ≤ ctxMeasure c s := by
  induction msgs with
  | nil => intro s c; exact le_refl _
  | cons m ms ih =>
    intro s c
    have hstep := finishTaskHandle_ctxMeasure_le m.1 m.2 s c
    have htail := ih (finishTaskHandle m.1 m.2 s) c
    exact le_trans htail hstep

/-! Claim theorems about the serializer handlers. -/

/-- C9: a `finishTask` message whose key is absent from the in-progress
table is a complete no-op: the handler returns the state unchanged, so
the table, the queue, `workSignal`, every entry's paused flag, and the
set of cancelled contexts are all untouched. -/
theorem finishTask_absent_key_noop :
    ∀ (key : ResponseKey) (err : Option GsError) (s : RMState),
      lookupEntry s.inProgress key = none → finishTaskHandle key err s = s := by
  intro key err s h
  simp [finishTaskHandle, h]

/-- Sample values exercising the serializer theorems on concrete inputs. -/
def wKey : ResponseKey := ⟨1, 2⟩

def wEntry : IPREntry := ⟨3, emptyRequest, none, none, false⟩

def wEntryPaused : IPREntry := ⟨3, emptyRequest, none, none, true⟩

def wState : RMState := ⟨[(wKey, wEntry)], [], false, [], 4⟩

def wStatePaused : RMState := ⟨[(wKey, wEntryPaused)], [], false, [], 4⟩

def wStateEmpty : RMState := ⟨[], [], false, [], 0⟩

/-- Witness for C9 at a concrete state with an absent key. -/
theorem finishTask_absent_key_noop_witness :
    lookupEntry wStateEmpty.inProgress wKey = none ∧
      finishTaskHandle wKey none wStateEmpty = wStateEmpty :=
  ⟨by decide, finishTask_absent_key_noop wKey none wStateEmpty (by decide)⟩

/-- C5: a `finishTask` message for a key present in the in-progress table
keeps the entry (marked `isPaused`, context not cancelled) when the
error is the paused error, and otherwise deletes the entry and invokes
its `cancelFn`; moreover the cancelled set changes only on such a
terminal transition, and across any sequence of `finishTask` messages a
context id is cancelled at most `ctxMeasure` many times — hence exactly
once for a context that occurs once in the table and was never cancelled
before. -/
theorem finishTask_paused_kept_terminal_cancelled :
    ∀ (key : ResponseKey) (err : Option GsError) (s : RMState),
      (∀ e, lookupEntry s.inProgress key = some e → err = some .errPaused →
        finishTaskHandle key err s =
          { s with inProgress :=
              updateEntry s.inProgress key fun e => { e with isPaused := true } } ∧
        lookupEntry (finishTaskHandle key err s).inProgress key =
          some { e with isPaused := true } ∧
        (finishTaskHandle key err s).cancelled = s.cancelled) ∧
      (∀ e, lookupEntry s.inProgress key = some e → err ≠ some .errPaused →
        lookupEntry (finishTaskHandle key err s).inProgress key = none ∧
        (finishTaskHandle key err s).cancelled = s.cancelled ++ [e.ctx]) ∧
      ((finishTaskHandle key err s).cancelled ≠ s.cancelled →
        err ≠ some .errPaused ∧
        lookupEntry (finishTaskHandle key err s).inProgress key = none) ∧
      (∀ (msgs : List (ResponseKey × Option GsError)) (c : Nat),
        (runFinishTasks msgs s).cancelled.count c ≤ ctxMeasure c s) := by
  intro key err s
  refine ⟨?_, ?_, ?_, ?_⟩
  · intro e hl hp
    subst hp
    refine ⟨by simp [finishTaskHandle, hl], ?_, by simp [finishTaskHandle, hl]⟩
    simp [finishTaskHandle, hl, lookupEntry_updateEntry]
  · intro e hl hp
    constructor
    · simp [finishTaskHandle, hl, hp, lookupEntry_eraseEntry]
    · simp [finishTaskHandle, hl, hp]
  · intro hne
    cases hl : lookupEntry s.inProgress key with
    | none => exact absurd (by simp [finishTaskHandle, hl]) hne
    | some e =>
      by_cases hp : err = some .errPaused
      · exact absurd (by simp [finishTaskHandle, hl, hp]) hne
      · exact ⟨hp, by simp [finishTaskHandle, hl, hp, lookupEntry_eraseEntry]⟩
  · intro msgs c
    have h1 : (runFinishTasks msgs s).cancelled.count c ≤
        ctxMeasure c (runFinishTasks msgs s) := Nat.le_add_left _ _
    exact le_trans h1 (runFinishTasks_ctxMeasure_le msgs s c)

/-- Witness for C5: at a concrete state, a paused finish keeps the entry
without cancelling, and a successful finish deletes it and cancels its
context. -/
theorem finishTask_paused_kept_terminal_cancelled_witness :
    lookupEntry wState.inProgress wKey = some wEntry ∧
      lookupEntry (finishTaskHandle wKey (some .errPaused) wState).inProgress wKey =
        some { wEntry with isPaused := true } ∧
      (finishTaskHandle wKey (some .errPaused) wState).cancelled = wState.cancelled ∧
      lookupEntry (finishTaskHandle wKey none wState).inProgress wKey = none ∧
      (finishTaskHandle wKey none wState).cancelled = wState.cancelled ++ [wEntry.ctx] :=
  ⟨by decide,
    ((finishTask_paused_kept_terminal_cancelled wKey (some .errPaused) wState).1 wEntry
      (by decide) rfl).2.1,
    ((finishTask_paused_kept_terminal_cancelled wKey (some .errPaused) wState).1 wEntry
      (by decide) rfl).2.2,
    ((finishTask_paused_kept_terminal_cancelled wKey none wState).2.1 wEntry
      (by decide) (by decide)).1,
    ((finishTask_paused_kept_terminal_cancelled wKey none wState).2.1 wEntry
      (by decide) (by decide)).2⟩

/-- C4: `unpauseResponse` replies with an error and leaves the state
unchanged when the key is absent or the entry not paused; otherwise it
clears `isPaused`, pushes a task for that key with maximum (int32)
priority, pokes `workSignal`, cancels nothing and returns no error. -/
theorem unpauseResponse_errors_and_resume :
    ∀ (p rid : Nat) (s : RMState),
      (lookupEntry s.inProgress ⟨p, rid⟩ = none →
        unpauseRequestHandle p rid s = (some "could not find request", s)) ∧
      (∀ e, lookupEntry s.inProgress ⟨p, rid⟩ = some e → e.isPaused = false →
        unpauseRequestHandle p rid s = (some "request is not paused", s)) ∧
      (∀ e, lookupEntry s.inProgress ⟨p, rid⟩ = some e → e.isPaused = true →
        (unpauseRequestHandle p rid s).1 = none ∧
        lookupEntry (unpauseRequestHandle p rid s).2.inProgress ⟨p, rid⟩ =
          some { e with isPaused := false } ∧
        (unpauseRequestHandle p rid s).2.queue =
          s.queue ++ [(p, ⟨⟨p, rid⟩, maxInt32Priority, 1⟩)] ∧
        (unpauseRequestHandle p rid s).2.workSignal = true ∧
        (unpauseRequestHandle p rid s).2.cancelled = s.cancelled) := by
  intro p rid s
  refine ⟨?_, ?_, ?_⟩
  · intro h
    simp [unpauseRequestHandle, h]
  · intro e hl hp
    simp [unpauseRequestHandle, hl, hp]
  · intro e hl hp
    refine ⟨by simp [unpauseRequestHandle, hl, hp], ?_,
      by simp [unpauseRequestHandle, hl, hp],
      by simp [unpauseRequestHandle, hl, hp],
      by simp [unpauseRequestHandle, hl, hp]⟩
    simp [unpauseRequestHandle, hl, hp, lookupEntry_updateEntry]

/-- Witness for C4: concrete absent-key, not-paused and paused cases. -/
theorem unpauseResponse_errors_and_resume_witness :
    lookupEntry wStateEmpty.inProgress ⟨1, 2⟩ = none ∧
      unpauseRequestHandle 1 2 wStateEmpty = (some "could not find request", wStateEmpty) ∧
      unpauseRequestHandle 1 2 wState = (some "request is not paused", wState) ∧
      (unpauseRequestHandle 1 2 wStatePaused).1 = none ∧
      (unpauseRequestHandle 1 2 wStatePaused).2.workSignal = true :=
  ⟨by decide,
    (unpauseResponse_errors_and_resume 1 2 wStateEmpty).1 (by decide),
    (unpauseResponse_errors_and_resume 1 2 wState).2.1 wEntry (by decide) rfl,
    ((unpauseResponse_errors_and_resume 1 2 wStatePaused).2.2 wEntryPaused
      (by decide) rfl).1,
    ((unpauseResponse_errors_and_resume 1 2 wStatePaused).2.2 wEntryPaused
      (by decide) rfl).2.2.2.1⟩

/-- Concrete inputs for the C3 counterexample: a request marked
`isUpdate` (and not `isCancel`) arriving while an in-progress entry for
its key exists. -/
def cUpdateReq : GsRequest := ⟨7, 3, false, true, 9, 9, none, none⟩

def cState : RMState := ⟨[(⟨1, 7⟩, ⟨0, emptyRequest, none, none, true⟩)], [], false, [], 5⟩

/-- C3 counterexample: the handler in
src/responsemanager/responsemanager.go has no `isUpdate` branch — a
request marked `isUpdate` is processed exactly like a brand-new request
(the existing entry is overwritten with a fresh one and a task is
pushed), not routed to the in-progress entry via an `updateSignal`. -/
theorem update_request_not_routed :
    lookupEntry (processOneRequest 1 cUpdateReq cState).inProgress ⟨1, 7⟩ =
      some ⟨5, cUpdateReq, none, none, false⟩ ∧
    (processOneRequest 1 cUpdateReq cState).queue = [(1, ⟨⟨1, 7⟩, 3, 1⟩)] ∧
    (processOneRequest 1 cUpdateReq cState).workSignal = true ∧
    (processOneRequest 1 cUpdateReq cState).queue =
      (processOneRequest 1 { cUpdateReq with isUpdate := false } cState).queue := by
  decide

/-- C3 (amended): a cancel request removes its key's queued tasks and
invokes the `cancelFn` of any in-progress entry (a no-op when no entry
exists); every other request — including one marked `isUpdate` — is
inserted as a new entry with a fresh context, a task with the request's
priority is pushed, and `workSignal` is poked. -/
theorem processRequest_cancel_and_insert :
    ∀ (p : Nat) (req : GsRequest) (s : RMState),
      (req.isCancel = false →
        lookupEntry (processOneRequest p req s).inProgress ⟨p, req.id⟩ =
          some ⟨s.nextCtx, req, none, none, false⟩ ∧
        (processOneRequest p req s).queue =
          s.queue ++ [(p, ⟨⟨p, req.id⟩, req.priority, 1⟩)] ∧
        (processOneRequest p req s).workSignal = true ∧
        (processOneRequest p req s).cancelled = s.cancelled) ∧
      (req.isCancel = true →
        (processOneRequest p req s).inProgress = s.inProgress ∧
        (processOneRequest p req s).workSignal = s.workSignal ∧
        (∀ t, t ∈ (processOneRequest p req s).queue →
          ¬(t.1 = p ∧ t.2.topic = ResponseKey.mk p req.id)) ∧
        (∀ t, t ∈ s.queue → ¬(t.1 = p ∧ t.2.topic = ResponseKey.mk p req.id) →
          t ∈ (processOneRequest p req s).queue) ∧
        (∀ e, lookupEntry s.inProgress ⟨p, req.id⟩ = some e →
          (processOneRequest p req s).cancelled = s.cancelled ++ [e.ctx]) ∧
        (lookupEntry s.inProgress ⟨p, req.id⟩ = none →
          (processOneRequest p req s).cancelled = s.cancelled)) := by
  intro p req s
  constructor
  · intro h
    refine ⟨?_, ?_, ?_, ?_⟩ <;>
      simp [processOneRequest, h, lookupEntry_setEntry_self]
  · intro h
    refine ⟨?_, ?_, ?_, ?_, ?_, ?_⟩
    · cases hl : lookupEntry s.inProgress ⟨p, req.id⟩ <;>
        simp [processOneRequest, h, hl]
    · cases hl : lookupEntry s.inProgress ⟨p, req.id⟩ <;>
        simp [processOneRequest, h, hl]
    · intro t ht
      cases hl : lookupEntry s.inProgress ⟨p, req.id⟩ <;>
        · simp [processOneRequest, h, hl, List.mem_filter] at ht
          intro hcon
          simp [hcon.1, hcon.2] at ht
    · intro t ht hne
      cases hl : lookupEntry s.inProgress ⟨p, req.id⟩ <;>
        · simp [processOneRequest, h, hl, List.mem_filter]
          refine ⟨ht, ?_⟩
          by_cases h1 : t.1 = p
          · by_cases h2 : t.2.topic = ResponseKey.mk p req.id
            · exact absurd ⟨h1, h2⟩ hne
            · simp [h1, h2]
          · simp [h1]
    · intro e hl
      simp [processOneRequest, h, hl]
    · intro hl
      simp [processOneRequest, h, hl]

/-- Witness for C3's amended theorem: a concrete insert and a concrete
cancel that invokes the entry's `cancelFn`. -/
theorem processRequest_cancel_and_insert_witness :
    lookupEntry
        (processOneRequest 1 { cUpdateReq with isCancel := false } wStateEmpty).inProgress
        ⟨1, 7⟩ = some ⟨0, { cUpdateReq with isCancel := false }, none, none, false⟩ ∧
      (processOneRequest 1 { cUpdateReq with isCancel := true } cState).cancelled =
        cState.cancelled ++ [0] :=
  ⟨((processRequest_cancel_and_insert 1 { cUpdateReq with isCancel := false }
      wStateEmpty).1 rfl).1,
    ((processRequest_cancel_and_insert 1 { cUpdateReq with isCancel := true }
      cState).2 rfl).2.2.2.2.1 ⟨0, emptyRequest, none, none, true⟩ (by decide)⟩

/-- C10: with the manager's context already cancelled, the public
`UnpauseResponse` never blocks — whatever branch each `select` resolves
to and whether or not the `messages` channel has room — and when the
serializer (whose run loop has exited) never produces a reply, the call
returns the "Context Cancelled" error. -/
theorem unpauseResponse_after_shutdown_returns :
    ∀ (msgSpace : Bool) (reply : Option (Option String)) (c1 c2 : SelectChoice),
      unpauseResponseCall true msgSpace reply c1 c2 ≠ CallResult.blocked ∧
      unpauseResponseCall true msgSpace none c1 c2 =
        CallResult.returned (some "Context Cancelled") := by
  intro msgSpace reply c1 c2
  constructor
  · cases c1 <;> cases c2 <;> cases msgSpace <;> cases reply <;>
      simp [unpauseResponseCall]
  · cases c1 <;> cases c2 <;> cases msgSpace <;> simp [unpauseResponseCall]

/-! Claim theorems about the query executor. -/

/-- C1: the error mapping of `executeQuery`: a traversal ending in the
paused error reports `RequestPaused` with no finish call; a
context-cancelled error reports `RequestCancelled` via
`FinishWithCancel()`; `errCancelledByCommand` reports `RequestCancelled`
via `FinishWithError(RequestCancelled)`; any other error reports
`RequestFailedUnknown` via `FinishWithError(RequestFailedUnknown)`; and
on normal termination `FinishRequest()` is called and the status it
returns is reported. -/
theorem executeQuery_status_mapping :
    ∀ (ys : List YieldStep) (tErr : Option GsError) (f : ResponseStatusCode)
      (evs : List SenderEvent) (r : Option GsError),
      runTraversalModel tErr ys = (evs, r) →
      ((r = some .errPaused →
        executeQueryModel ys tErr f = (.requestPaused, evs, some .errPaused)) ∧
      (∀ e, r = some e → isErrPaused e = false → isContextErr e = true →
        executeQueryModel ys tErr f =
          (.requestCancelled, evs ++ [SenderEvent.finishWithCancel], some e)) ∧
      (r = some .cancelledByCommand →
        executeQueryModel ys tErr f =
          (.requestCancelled, evs ++ [SenderEvent.finishWithError .requestCancelled],
            some .cancelledByCommand)) ∧
      (∀ e, r = some e → isErrPaused e = false → isContextErr e = false →
        e ≠ .cancelledByCommand →
        executeQueryModel ys tErr f =
          (.requestFailedUnknown,
            evs ++ [SenderEvent.finishWithError .requestFailedUnknown], some e)) ∧
      (r = none →
        executeQueryModel ys tErr f = (f, evs ++ [SenderEvent.finishRequest], none))) := by
  intro ys tErr f evs r h
  refine ⟨?_, ?_, ?_, ?_, ?_⟩
  · intro hr
    subst hr
    simp [executeQueryModel, h, executeQueryFinish, isErrPaused]
  · intro e hr hp hc
    subst hr
    simp [executeQueryModel, h, executeQueryFinish, hp, hc]
  · intro hr
    subst hr
    have hc : isContextErr .cancelledByCommand = false := by decide
    simp [executeQueryModel, h, executeQueryFinish, isErrPaused, hc]
  · intro e hr hp hc hcc
    subst hr
    simp [executeQueryModel, h, executeQueryFinish, hp, hc, hcc]
  · intro hr
    subst hr
    simp [executeQueryModel, h, executeQueryFinish]

/-- Witness for C1: concrete traversal outcomes exercising the
context-cancelled row and the catch-all row of the mapping. -/
theorem executeQuery_status_mapping_witness :
    executeQueryModel [] (some .contextCancel) .completedFull =
      (.requestCancelled, [SenderEvent.finishWithCancel], some .contextCancel) ∧
    executeQueryModel [] (some (.other "block not found")) .completedFull =
      (.requestFailedUnknown, [SenderEvent.finishWithError .requestFailedUnknown],
        some (.other "block not found")) := by
  constructor
  · simpa using
      (executeQuery_status_mapping [] (some .contextCancel) .completedFull []
        (some .contextCancel) rfl).2.1 .contextCancel rfl (by decide) (by decide)
  · simpa using
      (executeQuery_status_mapping [] (some (.other "block not found")) .completedFull []
        (some (.other "block not found")) rfl).2.2.2.1 (.other "block not found") rfl
        (by decide) (by decide) (by decide)

/-- C2 counterexample: with a pause signal pending, `visitLink` calls
`pauseRequest()` and returns the paused error for the link, yet
`sendResponse` IS still called for that very link inside the same
transaction — refuting the claim's "without calling sendResponse for
it". -/
theorem pause_signal_still_sends_block :
    (visitLink ⟨42, 5, [], none, [SignalEvent.pause]⟩).err = some .errPaused ∧
    SenderEvent.pauseRequest ∈ (visitLink ⟨42, 5, [], none, [SignalEvent.pause]⟩).events ∧
    SenderEvent.sendResponse 42 ∈ (visitLink ⟨42, 5, [], none, [SignalEvent.pause]⟩).events := by
  decide

/-- C2 (amended): on every yield, signals are polled at the start of the
per-link transaction, before the block is sent; when a pause signal is
observed the executor calls `pauseRequest()` and still calls
`sendResponse` for that link inside the same transaction; when the
block's reported size is positive the block hooks also run on it and a
non-nil block-hook error replaces the paused error as the visitor's
result, otherwise the visitor returns `errPaused` for the link; in every
case the visitor ends with an error, so the traversal stops at that link
and no further yield is processed. -/
theorem pause_signal_stops_traversal :
    ∀ (y : YieldStep) (ys : List YieldStep) (tErr : Option GsError)
      (rest : List SignalEvent),
      y.sigs = SignalEvent.pause :: rest →
      (∃ tail, (visitLink y).events =
        SenderEvent.pauseRequest :: SenderEvent.sendResponse y.link :: tail) ∧
      ((y.hookErr = none ∨ y.blockSize = 0) → (visitLink y).err = some .errPaused) ∧
      (∀ e, y.hookErr = some e → 0 < y.blockSize → (visitLink y).err = some e) ∧
      (visitLink y).err ≠ none ∧
      runTraversalModel tErr (y :: ys) = ((visitLink y).events, (visitLink y).err) := by
  intro y ys tErr rest hsigs
  have hcu : checkForUpdates y.sigs = ([SenderEvent.pauseRequest], some .errPaused) := by
    rw [hsigs, checkForUpdates]
  have hsome : ∃ e, (visitLink y).err = some e := by
    by_cases hb : 0 < y.blockSize
    · cases hhe : y.hookErr with
      | none => exact ⟨.errPaused, by simp [visitLink, hcu, isErrPaused, hb, hhe]⟩
      | some e => exact ⟨e, by simp [visitLink, hcu, isErrPaused, hb, hhe]⟩
    · exact ⟨.errPaused, by simp [visitLink, hcu, isErrPaused, hb]⟩
  obtain ⟨e, he⟩ := hsome
  refine ⟨?_, ?_, ?_, by simp [he], by simp [runTraversalModel, he]⟩
  · by_cases hb : 0 < y.blockSize
    · exact ⟨y.hookExtensions.map SenderEvent.sendExtensionData ++
        (if y.hookErr = some .errPaused then [SenderEvent.pauseRequest] else []),
        by simp [visitLink, hcu, isErrPaused, hb]⟩
    · exact ⟨[], by simp [visitLink, hcu, isErrPaused, hb]⟩
  · intro hside
    rcases hside with hh | hb
    · by_cases hb' : 0 < y.blockSize <;>
        simp [visitLink, hcu, isErrPaused, hb', hh]
    · simp [visitLink, hcu, isErrPaused, hb]
  · intro e' he' hb
    simp [visitLink, hcu, isErrPaused, hb, he']

/-- Witness for C2's amended theorem: a concrete two-yield traversal
that pauses on the first yield and never visits the second. -/
theorem pause_signal_stops_traversal_witness :
    (YieldStep.mk 7 0 [] none [SignalEvent.pause]).sigs = SignalEvent.pause :: [] ∧
    runTraversalModel none
        [⟨7, 0, [], none, [SignalEvent.pause]⟩, ⟨8, 1, [], none, []⟩] =
      ((visitLink ⟨7, 0, [], none, [SignalEvent.pause]⟩).events, some .errPaused) := by
  refine ⟨rfl, ?_⟩
  have h := pause_signal_stops_traversal ⟨7, 0, [], none, [SignalEvent.pause]⟩
    [⟨8, 1, [], none, []⟩] none [] rfl
  rw [h.2.2.2.2, h.2.1 (Or.inl rfl)]

/-- C6: when the request-hook chain fails (an error or
`isValidated=false`), `prepareQuery` still sends the hook extensions,
sends `FinishWithError(RequestFailedUnknown)`, emits no block record,
and builds no loader or traverser; `executeTask` then fails the request
with `RequestFailedUnknown` without running any traversal. -/
theorem prepareQuery_invalid_request_fails :
    ∀ (dl : Nat) (result : RequestHookResult) (request : GsRequest),
      (result.err.isSome = true ∨ result.isValidated = false) →
      prepareQuery dl result request =
        (result.extensions.map SenderEvent.sendExtensionData ++
          [SenderEvent.finishWithError .requestFailedUnknown],
          .error (.other "request not valid")) ∧
      (∀ l, SenderEvent.sendResponse l ∉ (prepareQuery dl result request).1) ∧
      (∀ (td : TaskData) (ys : List YieldStep) (tErr : Option GsError)
        (f : ResponseStatusCode),
        td.loader = none → td.request = request →
        executeTaskModel td dl result ys tErr f =
          (.requestFailedUnknown,
            result.extensions.map SenderEvent.sendExtensionData ++
              [SenderEvent.finishWithError .requestFailedUnknown],
            some (.other "request not valid"))) := by
  intro dl result request h
  have hcond : (result.err.isSome || !result.isValidated) = true := by
    rcases h with h | h <;> simp [h]
  have heq : prepareQuery dl result request =
      (result.extensions.map SenderEvent.sendExtensionData ++
        [SenderEvent.finishWithError .requestFailedUnknown],
        .error (.other "request not valid")) := by
    simp [prepareQuery, hcond]
  refine ⟨heq, ?_, ?_⟩
  · intro l hl
    rw [heq] at hl
    simp at hl
  · intro td ys tErr f hload hreq
    obtain ⟨emp, reqf, loaderf, travf⟩ := td
    simp only at hload hreq
    subst hload
    subst hreq
    cases travf
    all_goals simp [executeTaskModel, heq]

/-- Witness for C6: a concrete non-validated hook result. -/
theorem prepareQuery_invalid_request_fails_witness :
    ((⟨[11], none, false, false, none, none⟩ : RequestHookResult).err.isSome = true ∨
      (⟨[11], none, false, false, none, none⟩ : RequestHookResult).isValidated = false) ∧
    prepareQuery 0 ⟨[11], none, false, false, none, none⟩ emptyRequest =
      ([SenderEvent.sendExtensionData 11,
        SenderEvent.finishWithError .requestFailedUnknown],
        .error (.other "request not valid")) := by
  refine ⟨Or.inr rfl, ?_⟩
  simpa using
    (prepareQuery_invalid_request_fails 0 ⟨[11], none, false, false, none, none⟩
      emptyRequest (Or.inr rfl)).1

/-- C7: for a block actually sent by `sendResponse` (the signal poll
returned no error or the paused error), the block-hook chain runs iff
the returned block size is positive; when it runs, its extensions are
appended in order, a paused hook result calls `pauseRequest()` and the
paused error propagates, and any other hook error propagates; a
suppressed (size 0) block invokes no block hooks. -/
theorem block_hooks_iff_positive_size :
    ∀ (y : YieldStep),
      ((checkForUpdates y.sigs).2 = none ∨ (checkForUpdates y.sigs).2 = some .errPaused) →
      ((visitLink y).ranBlockHooks = decide (0 < y.blockSize) ∧
      (0 < y.blockSize →
        (visitLink y).events =
          (checkForUpdates y.sigs).1 ++ [SenderEvent.sendResponse y.link] ++
            y.hookExtensions.map SenderEvent.sendExtensionData ++
            (if y.hookErr = some .errPaused then [SenderEvent.pauseRequest] else []) ∧
        (y.hookErr = some .errPaused →
          SenderEvent.pauseRequest ∈ (visitLink y).events ∧
          (visitLink y).err = some .errPaused) ∧
        (∀ e, y.hookErr = some e → (visitLink y).err = some e)) ∧
      (y.blockSize = 0 →
        (visitLink y).ranBlockHooks = false ∧
        (visitLink y).err = (checkForUpdates y.sigs).2)) := by
  intro y h
  have habort : (match (checkForUpdates y.sigs).2 with
      | some e => !isErrPaused e
      | none => false) = false := by
    rcases h with h | h <;> simp [h, isErrPaused]
  refine ⟨?_, ?_, ?_⟩
  · by_cases hb : 0 < y.blockSize <;>
      simp [visitLink, habort, hb]
  · intro hb
    refine ⟨by simp [visitLink, habort, hb], ?_, ?_⟩
    · intro hp
      constructor
      · simp [visitLink, habort, hb, hp]
      · simp [visitLink, habort, hb, hp]
    · intro e he
      simp [visitLink, habort, hb, he]
  · intro hb
    have hb' : ¬0 < y.blockSize := by omega
    constructor
    · simp [visitLink, habort, hb']
    · simp [visitLink, habort, hb']

/-- Witness for C7: a concrete positive-size block whose block hooks
return pause. -/
theorem block_hooks_iff_positive_size_witness :
    (visitLink ⟨5, 2, [21], some .errPaused, []⟩).ranBlockHooks = decide (0 < 2) ∧
    SenderEvent.pauseRequest ∈ (visitLink ⟨5, 2, [21], some .errPaused, []⟩).events ∧
    (visitLink ⟨5, 2, [21], some .errPaused, []⟩).err = some .errPaused := by
  have h := block_hooks_iff_positive_size ⟨5, 2, [21], some .errPaused, []⟩ (Or.inl rfl)
  exact ⟨h.1, ((h.2.1 (by decide)).2.1 rfl).1, ((h.2.1 (by decide)).2.1 rfl).2⟩

/-- C8: for a popped task whose key has no entry in the in-progress
table, the serializer's reply is the empty task-data value and the
worker logs and skips the task: `executeTask` is never invoked and no
`finishTask` message is produced (result `none`), so absent task data is
never dereferenced. -/
theorem worker_skips_empty_task_data :
    ∀ (s : RMState) (key : ResponseKey) (dl : Nat) (hookRes : RequestHookResult)
      (ys : List YieldStep) (tErr : Option GsError) (f : ResponseStatusCode),
      lookupEntry s.inProgress key = none →
      responseDataReply s key = emptyTaskData ∧
      workerProcessTask (responseDataReply s key) dl hookRes ys tErr f = none := by
  intro s key dl hookRes ys tErr f h
  constructor
  · simp [responseDataReply, h]
  · simp [workerProcessTask, responseDataReply, h, emptyTaskData]

/-- Witness for C8: a concrete empty table. -/
theorem worker_skips_empty_task_data_witness :
    lookupEntry wStateEmpty.inProgress wKey = none ∧
    workerProcessTask (responseDataReply wStateEmpty wKey) 0
        ⟨[], none, true, false, none, none⟩ [] none .completedFull = none :=
  ⟨by decide,
    (worker_skips_empty_task_data wStateEmpty wKey 0
      ⟨[], none, true, false, none, none⟩ [] none .completedFull (by decide)).2⟩

end GraphSync
